import Mathlib

/-!
Verification of the tarmac-trace-utilities index data structures.

This file gives a shallow embedding, in Lean 4, of the data-model layer of
the Tarmac Trace Utilities index (include/libtarmac/index_ds.hh,
include/libtarmac/index.hh, tools/calltree.cpp), and proves properties of
the comparators, annotations and query helpers declared there.

Conventions of the embedding:
- C `unsigned` (32-bit) and `uint64_t`/`Addr`/`OFF_T` fields are modelled as
  `Nat`; wherever the C code performs arithmetic that can overflow, the
  embedding applies an explicit `% 2^32` so that unsigned wraparound is
  modelled faithfully.  Comparisons (`<`, `>`, `==`) on unsigned values
  agree with `Nat` comparisons, so no reduction is needed there.
- C `char` fields compared with `<` are modelled as `Char` (the values used
  by the program, the address-space tags, are the ASCII letters 'r' and
  'm', for which signed-char and unsigned-char comparison agree with
  codepoint comparison).
- The `cmp` member functions return the C `int` values -1, 0, +1; they are
  modelled as functions into `Int`.
-/

/-- Width of the C `unsigned` type: all `diskint<unsigned>` fields are
32-bit. -/
def U32_MOD : Nat := 2 ^ 32

/-- `#define SENTINEL_DEPTH (UINT_MAX - 1)` from index_ds.hh: the
terminating call-depth value `2^32 - 2` in call-depth arrays. -/
def SENTINEL_DEPTH : Nat := U32_MOD - 2

/-- `#define FLAG_COMPLETE 0x00000004U` from index_ds.hh: the header flag
recording that index generation completed successfully. -/
def FLAG_COMPLETE : Nat := 4

/-- Payload of the sequential-order tree (`struct SeqOrderPayload`), one
record per observable instant of the trace. -/
structure SeqOrderPayload where
  mod_time : Nat
  pc : Nat
  trace_file_pos : Nat
  trace_file_len : Nat
  trace_file_firstline : Nat
  trace_file_lines : Nat
  memory_root : Nat
  call_depth : Nat

/-- `SeqOrderPayload::cmp`: compare two sequential-order payloads.  The C
code compares only the `trace_file_firstline` fields. -/
def SeqOrderPayload.cmp (a rhs : SeqOrderPayload) : Int :=
  if a.trace_file_firstline ≠ rhs.trace_file_firstline then
    if a.trace_file_firstline < rhs.trace_file_firstline then -1 else 1
  else 0

/-- Payload of the memory tree (`struct MemoryPayload`): an inclusive
interval `[lo, hi]` of addresses in the address space named by `type`
('r' = register, 'm' = memory), plus its contents pointer and the line of
the last touch. -/
structure MemoryPayload where
  type : Char
  raw : Bool
  lo : Nat
  hi : Nat
  contents : Nat
  trace_file_firstline : Nat

/-- `MemoryPayload::cmp`: primary comparison on the address-space tag,
then interval comparison where any overlap counts as equality. -/
def MemoryPayload.cmp (a rhs : MemoryPayload) : Int :=
  if a.type ≠ rhs.type then
    if a.type < rhs.type then -1 else 1
  else if a.hi < rhs.lo then -1
  else if a.lo > rhs.hi then 1
  else 0

/-- Annotation of the memory tree (`struct MemoryAnnotation`): the
first-line key of the seqtree node that last touched any byte of the
subtree. -/
structure MemoryAnnotation where
  latest : Nat

/-- `MemoryAnnotation()` — the default constructor sets `latest(0)`. -/
def MemoryAnnotation.default : MemoryAnnotation := ⟨0⟩

/-- `MemoryAnnotation(const MemoryPayload &p)` — the single-payload
constructor sets `latest(p.trace_file_firstline)`. -/
def MemoryAnnotation.ofPayload (p : MemoryPayload) : MemoryAnnotation :=
  ⟨p.trace_file_firstline⟩

/-- `MemoryAnnotation(lhs, rhs)` — the combining constructor computes
`std::max(lhs.latest + 1, rhs.latest + 1) - 1` in C `unsigned` arithmetic,
which wraps modulo `2^32` on both the increments and the decrement. -/
def MemoryAnnotation.combine (lhs rhs : MemoryAnnotation) : MemoryAnnotation :=
  ⟨(max ((lhs.latest + 1) % U32_MOD) ((rhs.latest + 1) % U32_MOD)
      + (U32_MOD - 1)) % U32_MOD⟩

/-- Payload of a memory sub-tree (`struct MemorySubPayload`): an inclusive
address interval and a pointer to raw bytes. -/
structure MemorySubPayload where
  lo : Nat
  hi : Nat
  contents : Nat

/-- `MemorySubPayload::cmp`: interval comparison where any overlap counts
as equality; no address-space tag. -/
def MemorySubPayload.cmp (a rhs : MemorySubPayload) : Int :=
  if a.hi < rhs.lo then -1
  else if a.lo > rhs.hi then 1
  else 0

/-- Payload of the PC tree (`struct ByPCPayload`). -/
structure ByPCPayload where
  pc : Nat
  trace_file_firstline : Nat

/-- `ByPCPayload::cmp`: primary comparison on `pc`, secondary on
`trace_file_firstline`. -/
def ByPCPayload.cmp (a rhs : ByPCPayload) : Int :=
  if a.pc ≠ rhs.pc then
    if a.pc < rhs.pc then -1 else 1
  else if a.trace_file_firstline ≠ rhs.trace_file_firstline then
    if a.trace_file_firstline < rhs.trace_file_firstline then -1 else 1
  else 0

/-- `struct IndexerParams` from index.hh, with its in-class default member
initialisers `record_memory = true`, `record_calls = true`. -/
structure IndexerParams where
  record_memory : Bool := true
  record_calls : Bool := true

/-- `IndexerParams::can_store_on_disk`: disk-based indexes are permitted
only when they contain all the optional parts. -/
def IndexerParams.can_store_on_disk (p : IndexerParams) : Bool :=
  p.record_memory && p.record_calls

/-- The indexer parameters built by `main` in tools/calltree.cpp: default
construction followed by `iparams.record_memory = false;`. -/
def calltree_iparams : IndexerParams :=
  { record_memory := false }

/-- `enum class IndexHeaderState` from index.hh. -/
inductive IndexHeaderState where
  | OK
  | WrongMagic
  | Incomplete
deriving DecidableEq

/-- The bytes an index file starts with: the 16-byte magic number and the
`flags` word of the `FileHeader` that follows it (the other header fields
play no part in header checking). -/
structure IndexFileHeader where
  magic : List Nat
  flags : Nat

/-- Modelled from the spec: the body of `check_index_header` lives in the
library sources outside this tree; only its declaration
(`IndexHeaderState check_index_header(const std::string &)`, index.hh) is
present.  Per the spec: a magic number differing from the reference copy
yields `WrongMagic`; a valid magic whose header lacks the `COMPLETE` flag
yields `Incomplete`; otherwise `OK`.  The reference copy of the magic (a
constant living in lib/index_ds.cpp, also outside this tree) is passed as
the parameter `ref`. -/
def check_index_header (ref : List Nat) (f : IndexFileHeader) : IndexHeaderState :=
  if f.magic ≠ ref then .WrongMagic
  else if f.flags &&& FLAG_COMPLETE = 0 then .Incomplete
  else .OK

/-- `struct CallDepthArrayEntry` from index_ds.hh: one record of the
cumulative frequency table attached to a sequential-order tree node by the
layered-range post-pass. -/
structure CallDepthArrayEntry where
  call_depth : Nat
  cumulative_lines : Nat
  cumulative_insns : Nat
  leftlink : Nat
  rightlink : Nat
deriving DecidableEq

/-- The shape of (a subtree of) the finished sequential-order tree, keeping
only the two payload fields the layered-range post-pass reads: each node's
`call_depth` and its `trace_file_lines`. -/
inductive SeqTree where
  | nil
  | node (l : SeqTree) (call_depth : Nat) (lines : Nat) (r : SeqTree)

/-- The in-order list of `(call_depth, trace_file_lines)` pairs of the
nodes of a subtree. -/
def SeqTree.nodes : SeqTree → List (Nat × Nat)
  | .nil => []
  | .node l cd ln r => l.nodes ++ [(cd, ln)] ++ r.nodes

/-- Number of trace-file lines among the given nodes whose call depth is
strictly less than `d` (the second cumulative count of a
`CallDepthArrayEntry`, per the data-structure description in
index_ds.hh). -/
def cumLines (ns : List (Nat × Nat)) (d : Nat) : Nat :=
  ((ns.filter (fun p => decide (p.1 < d))).map Prod.snd).sum

/-- Number of events (tree nodes) among the given nodes whose call depth is
strictly less than `d` (the instruction count of a
`CallDepthArrayEntry`). -/
def cumInsns (ns : List (Nat × Nat)) (d : Nat) : Nat :=
  (ns.filter (fun p => decide (p.1 < d))).length

/-- Modelled from the spec: the layered-range post-pass itself lives in the
library sources outside this tree; only the record layout
(`CallDepthArrayEntry`, index_ds.hh) and the prose description of the
arrays (the long comment in index_ds.hh and the spec) are present here.
For a subtree, the array holds one entry per distinct call depth occurring
in the subtree, sorted ascending, terminated by a `SENTINEL_DEPTH` entry;
each entry at depth `d` carries the cumulative counts of lines and of
events at depths strictly below `d`.  Cross-link fields concern parent and
child arrays and are left 0 here (a single subtree's array does not
determine them). -/
def call_depth_array (t : SeqTree) : List CallDepthArrayEntry :=
  (((t.nodes.map Prod.fst).dedup.insertionSort (· ≤ ·)) ++ [SENTINEL_DEPTH]).map
    (fun d => ⟨d, cumLines t.nodes d, cumInsns t.nodes d, 0, 0⟩)

/-- A call depth lies in the half-open depth range `[lo, hi)`. -/
def inDepthRange (lo hi d : Nat) : Bool :=
  decide (lo ≤ d ∧ d < hi)

/-- Modelled from the spec: `IndexNavigator::lrt_translate` is implemented
in the library sources outside this tree; only its declaration and
semantics comment (index.hh) are present.  The completed index is
abstracted as the list `ds` of the call depths of the successive trace
lines.  Per the comment: find the `line`-th line (counting from zero)
whose call depth is in `[da, db)`, and return the number of lines
preceding that one whose call depth is in `[ea, eb)`.  (The C++ call
assumes the search succeeds; past the end of the list this model simply
stops counting.) -/
def lrt_translate : List Nat → Nat → Nat → Nat → Nat → Nat → Nat
  | [], _, _, _, _, _ => 0
  | d :: rest, line, da, db, ea, eb =>
    if inDepthRange da db d then
      if line = 0 then 0
      else (if inDepthRange ea eb d then 1 else 0)
        + lrt_translate rest (line - 1) da db ea eb
    else (if inDepthRange ea eb d then 1 else 0)
      + lrt_translate rest line da db ea eb

/-- Modelled from the spec: `IndexNavigator::lrt_translate_range` takes
the difference of two `lrt_translate` calls; its return type is the C
`unsigned`, so the subtraction is 32-bit wrapping subtraction. -/
def lrt_translate_range (ds : List Nat) (linestart lineend da db ea eb : Nat) : Nat :=
  (lrt_translate ds lineend da db ea eb + U32_MOD
    - lrt_translate ds linestart da db ea eb) % U32_MOD

/-- Index (position in the trace-line list) of the `k`-th line whose call
depth lies in `[da, db)`; equal to the list length if there is no such
line. -/
def posOfNth : List Nat → Nat → Nat → Nat → Nat
  | [], _, _, _ => 0
  | d :: rest, da, db, k =>
    if inDepthRange da db d then
      if k = 0 then 0 else posOfNth rest da db (k - 1) + 1
    else posOfNth rest da db k + 1

/-- Direct full scan: the number of lines whose call depth is in
`[ea, eb)` among the lines lying between the `linestart`-th and the
`lineend`-th lines whose call depth is in `[da, db)`. -/
def directRangeCount (ds : List Nat) (linestart lineend da db ea eb : Nat) : Nat :=
  (((ds.drop (posOfNth ds da db linestart)).take
      (posOfNth ds da db lineend - posOfNth ds da db linestart)).filter
    (fun d => inDepthRange ea eb d)).length

/-!
Helper lemmas, shared by several of the theorems below.
-/

/-- The combining constructor computes the maximum whenever neither input
is the maximal unsigned value `2^32 - 1` (so neither increment wraps). -/
theorem combine_latest_eq_max (a b : MemoryAnnotation)
    (ha : a.latest < U32_MOD - 1) (hb : b.latest < U32_MOD - 1) :
    ( MemoryAnnotation.combine a b).latest = max a.latest b.latest := by
  have hU : U32_MOD = 4294967296 := by norm_num [U32_MOD]
  simp only [ MemoryAnnotation.combine, hU] at *
  omega

/-!
C1 — the MemoryAnnotation combiner versus `max`.
-/

/-- C1, counterexample: at `a.latest = 2^32 - 1`, `b.latest = 0`, the
combiner computes `max(0, 1) - 1 = 0` (the increment of `a` wraps), not
`max(a.latest, b.latest) = 2^32 - 1`; so the claimed identity does not
hold for all 32-bit unsigned values. -/
theorem c1_combine_counterexample :
    ( MemoryAnnotation.combine ⟨4294967295⟩ ⟨0⟩).latest ≠ max 4294967295 0 := by
  decide

/-- C1 (amended): for every pair of `MemoryAnnotation` values whose
`latest` fields are both below `2^32 - 1` (so that neither `latest + 1`
wraps), the combiner `max(lhs.latest + 1, rhs.latest + 1) - 1` yields
`max(a.latest, b.latest)`. -/
theorem c1_combine_eq_max (a b : MemoryAnnotation)
    (ha : a.latest < U32_MOD - 1) (hb : b.latest < U32_MOD - 1) :
    ( MemoryAnnotation.combine a b).latest = max a.latest b.latest :=
  combine_latest_eq_max a b ha hb

/-- C1, witness: the amended theorem applied at `latest` values 5 and 9. -/
theorem c1_combine_eq_max_witness :
    (5 < U32_MOD - 1 ∧ 9 < U32_MOD - 1) ∧
      ( MemoryAnnotation.combine ⟨5⟩ ⟨9⟩).latest = max 5 9 :=
  ⟨⟨by decide, by decide⟩, c1_combine_eq_max ⟨5⟩ ⟨9⟩ (by decide) (by decide)⟩

/-!
C10 — the default annotation as a combiner identity.
-/

/-- C10: the default-constructed `MemoryAnnotation` has `latest = 0`; for
every annotation `a` with `a.latest < 2^32 - 1`, combining `a` with a
default annotation on either side yields `latest = a.latest`; and the
single-payload constructor copies the payload's `trace_file_firstline`. -/
theorem c10_default_identity (a : MemoryAnnotation) (p : MemoryPayload)
    (ha : a.latest < U32_MOD - 1) :
    MemoryAnnotation.default.latest = 0 ∧
    ( MemoryAnnotation.combine a MemoryAnnotation.default).latest = a.latest ∧
    ( MemoryAnnotation.combine MemoryAnnotation.default a).latest = a.latest ∧
    ( MemoryAnnotation.ofPayload p).latest = p.trace_file_firstline := by
  have h0 : MemoryAnnotation.default.latest = 0 := rfl
  have hd : MemoryAnnotation.default.latest < U32_MOD - 1 := by
    rw [h0]; norm_num [U32_MOD]
  refine ⟨h0, ?_, ?_, rfl⟩
  · rw [combine_latest_eq_max a MemoryAnnotation.default ha hd, h0]
    omega
  · rw [combine_latest_eq_max MemoryAnnotation.default a hd ha, h0]
    omega

/-- C10, witness: the theorem applied at `latest = 7` and a concrete
payload. -/
theorem c10_default_identity_witness :
    7 < U32_MOD - 1 ∧
      ( MemoryAnnotation.combine ⟨7⟩ MemoryAnnotation.default).latest = 7 :=
  ⟨by decide,
   (c10_default_identity ⟨7⟩ ⟨'m', true, 0, 0, 0, 0⟩ (by decide)).2.1⟩

/-!
C3 — the sequential-order comparator depends only on the first line.
-/

/-- C3: `SeqOrderPayload::cmp` is determined solely by
`trace_file_firstline`: it returns -1 when `a`'s first line is smaller,
+1 when it is greater, and 0 exactly when the first lines are equal —
regardless of `mod_time`, `pc`, byte range, `memory_root` or
`call_depth` (the payloads are otherwise arbitrary). -/
theorem c3_seqOrder_cmp_spec (a b : SeqOrderPayload) :
    (a.trace_file_firstline < b.trace_file_firstline → a.cmp b = -1) ∧
    (b.trace_file_firstline < a.trace_file_firstline → a.cmp b = 1) ∧
    (a.cmp b = 0 ↔ a.trace_file_firstline = b.trace_file_firstline) := by
  simp only [SeqOrderPayload.cmp]
  split_ifs with h1 h2 <;>
    refine ⟨fun h => ?_, fun h => ?_, ?_⟩ <;> simp_all
  omega

/-- C3, witness: two payloads with equal first line 7 but different
timestamps (10 and 20) and different PCs compare equal. -/
theorem c3_seqOrder_cmp_witness :
    (⟨10, 256, 0, 0, 7, 1, 0, 0⟩ : SeqOrderPayload).cmp
      ⟨20, 260, 5, 5, 7, 1, 3, 2⟩ = 0 :=
  (c3_seqOrder_cmp_spec ⟨10, 256, 0, 0, 7, 1, 0, 0⟩
    ⟨20, 260, 5, 5, 7, 1, 3, 2⟩).2.2.mpr rfl

/-!
C8 — the PC-tree comparator is lexicographic on (pc, firstline).
-/

/-- C8: `ByPCPayload::cmp` orders primarily by `pc` and secondarily by
`trace_file_firstline`: when the PCs differ it returns -1 or +1 according
to the PC comparison; when they are equal it returns -1 or +1 according to
the first-line comparison; and it returns 0 exactly when both fields are
equal. -/
theorem c8_byPC_cmp_spec (a b : ByPCPayload) :
    (a.pc ≠ b.pc → a.cmp b = if a.pc < b.pc then -1 else 1) ∧
    (a.pc = b.pc → a.trace_file_firstline ≠ b.trace_file_firstline →
      a.cmp b =
        if a.trace_file_firstline < b.trace_file_firstline then -1 else 1) ∧
    (a.cmp b = 0 ↔
      a.pc = b.pc ∧ a.trace_file_firstline = b.trace_file_firstline) := by
  simp only [ByPCPayload.cmp]
  split_ifs with h1 h2 h3 h4 h5 <;>
    refine ⟨fun h => ?_, fun h h' => ?_, ?_⟩ <;>
    simp_all

/-- C8, witness: the theorem applied at two payloads with equal PC 0x100
and first lines 4 < 8 gives -1. -/
theorem c8_byPC_cmp_witness :
    (⟨256, 4⟩ : ByPCPayload).cmp ⟨256, 8⟩ = -1 := by
  have h := (c8_byPC_cmp_spec ⟨256, 4⟩ ⟨256, 8⟩).2.1 rfl (by decide)
  simpa using h

/-!
C6 — when an index may be persisted to disk.
-/

/-- C6: `IndexerParams::can_store_on_disk` returns true exactly when both
`record_memory` and `record_calls` are true; in particular the calltree
tool's parameters (which set `record_memory = false`) may not be persisted
to disk. -/
theorem c6_can_store_on_disk_spec (p : IndexerParams) :
    (p.can_store_on_disk = true ↔
      p.record_memory = true ∧ p.record_calls = true) ∧
    calltree_iparams.can_store_on_disk = false := by
  constructor
  · simp [IndexerParams.can_store_on_disk]
  · rfl

/-- C6, witness: the theorem applied at the all-features parameters. -/
theorem c6_can_store_on_disk_witness :
    (⟨true, true⟩ : IndexerParams).can_store_on_disk = true :=
  (c6_can_store_on_disk_spec ⟨true, true⟩).1.mpr ⟨rfl, rfl⟩

/-!
C5 — the three outcomes of checking an index header.
-/

/-- C5: `check_index_header` returns exactly one of three distinct
outcomes: `WrongMagic` exactly when the file's magic differs from the
reference copy, `Incomplete` exactly when the magic matches but the
`COMPLETE` flag bit is absent from the header flags, and `OK` exactly when
the magic matches and the `COMPLETE` flag is set. -/
theorem c5_check_index_header_spec (ref : List Nat) (f : IndexFileHeader) :
    (check_index_header ref f = .WrongMagic ↔ f.magic ≠ ref) ∧
    (check_index_header ref f = .Incomplete ↔
      f.magic = ref ∧ f.flags &&& FLAG_COMPLETE = 0) ∧
    (check_index_header ref f = .OK ↔
      f.magic = ref ∧ f.flags &&& FLAG_COMPLETE ≠ 0) := by
  simp only [check_index_header]
  split_ifs with h1 h2 <;> simp_all

/-- C5, witness: with a one-byte reference magic `[1]`, flags 4 (only the
COMPLETE bit) give `OK`, flags 3 give `Incomplete`, and a mismatched magic
gives `WrongMagic`. -/
theorem c5_check_index_header_witness :
    check_index_header [1] ⟨[1], 4⟩ = .OK ∧
    check_index_header [1] ⟨[1], 3⟩ = .Incomplete ∧
    check_index_header [1] ⟨[2], 4⟩ = .WrongMagic :=
  ⟨(c5_check_index_header_spec [1] ⟨[1], 4⟩).2.2.mpr ⟨rfl, by decide⟩,
   (c5_check_index_header_spec [1] ⟨[1], 3⟩).2.1.mpr ⟨rfl, by decide⟩,
   (c5_check_index_header_spec [1] ⟨[2], 4⟩).1.mpr (by decide)⟩

/-!
C2 — the interval comparators treat overlap as equality.
-/

/-- C2: for memory payloads whose fields describe genuine inclusive
intervals (`lo ≤ hi`), `MemoryPayload::cmp` compares primarily by the
address-space tag `type`; at equal types it returns -1 when `a.hi < b.lo`,
+1 when `a.lo > b.hi`, and 0 exactly when the inclusive intervals
`[a.lo, a.hi]` and `[b.lo, b.hi]` have a common point; and
`MemorySubPayload::cmp` behaves the same way with no type field. -/
theorem c2_interval_cmp_spec (a b : MemoryPayload) (x y : MemorySubPayload)
    (ha : a.lo ≤ a.hi) (hb : b.lo ≤ b.hi)
    (hx : x.lo ≤ x.hi) (hy : y.lo ≤ y.hi) :
    (a.type ≠ b.type → a.cmp b = if a.type < b.type then -1 else 1) ∧
    (a.type = b.type →
      (a.hi < b.lo → a.cmp b = -1) ∧
      (a.lo > b.hi → a.cmp b = 1) ∧
      (a.cmp b = 0 ↔ ∃ n, a.lo ≤ n ∧ n ≤ a.hi ∧ b.lo ≤ n ∧ n ≤ b.hi)) ∧
    ((x.hi < y.lo → x.cmp y = -1) ∧
      (x.lo > y.hi → x.cmp y = 1) ∧
      (x.cmp y = 0 ↔ ∃ n, x.lo ≤ n ∧ n ≤ x.hi ∧ y.lo ≤ n ∧ n ≤ y.hi)) := by
  refine ⟨fun ht => ?_, fun ht => ⟨fun h => ?_, fun h => ?_, ?_⟩,
    fun h => ?_, fun h => ?_, ?_⟩
  · simp [MemoryPayload.cmp, ht]
  · simp [MemoryPayload.cmp, ht, h]
  · have h' : ¬a.hi < b.lo := by omega
    simp [MemoryPayload.cmp, ht, h, h']
  · have h' : ¬(a.type ≠ b.type) := by simp [ht]
    simp only [MemoryPayload.cmp]
    rw [if_neg h']
    split_ifs with h1 h2
    · refine iff_of_false (by decide) ?_
      rintro ⟨n, h3, h4, h5, h6⟩; omega
    · refine iff_of_false (by decide) ?_
      rintro ⟨n, h3, h4, h5, h6⟩; omega
    · exact iff_of_true rfl ⟨max a.lo b.lo, by omega, by omega, by omega, by omega⟩
  · simp [MemorySubPayload.cmp, h]
  · have h' : ¬x.hi < y.lo := by omega
    simp [MemorySubPayload.cmp, h, h']
  · simp only [MemorySubPayload.cmp]
    split_ifs with h1 h2
    · refine iff_of_false (by decide) ?_
      rintro ⟨n, h3, h4, h5, h6⟩; omega
    · refine iff_of_false (by decide) ?_
      rintro ⟨n, h3, h4, h5, h6⟩; omega
    · exact iff_of_true rfl ⟨max x.lo y.lo, by omega, by omega, by omega, by omega⟩

/-- C2, witness: the overlapping memory intervals `[0,5]` and `[3,9]` in
the same address space compare equal, via the theorem's overlap
characterisation at the common point 3. -/
theorem c2_interval_cmp_witness :
    (⟨'m', true, 0, 5, 0, 0⟩ : MemoryPayload).cmp
      ⟨'m', true, 3, 9, 0, 0⟩ = 0 :=
  ((c2_interval_cmp_spec ⟨'m', true, 0, 5, 0, 0⟩ ⟨'m', true, 3, 9, 0, 0⟩
      ⟨0, 5, 0⟩ ⟨3, 9, 0⟩ (by decide) (by decide) (by decide)
      (by decide)).2.1 rfl).2.2.mpr
    ⟨3, by decide, by decide, by decide, by decide⟩

/-!
C9 — antisymmetry of the interval comparators.
-/

/-- C9: for payloads describing genuine inclusive intervals (`lo ≤ hi`),
swapping the arguments of `MemoryPayload::cmp` negates the result, and
likewise for `MemorySubPayload::cmp` — so descents driven by these
comparators are direction-consistent even though the overlap-based
equality they induce is not transitive. -/
theorem c9_interval_cmp_antisymm (a b : MemoryPayload) (x y : MemorySubPayload)
    (ha : a.lo ≤ a.hi) (hb : b.lo ≤ b.hi)
    (hx : x.lo ≤ x.hi) (hy : y.lo ≤ y.hi) :
    a.cmp b = -(b.cmp a) ∧ x.cmp y = -(y.cmp x) := by
  constructor
  · by_cases ht : a.type = b.type
    · have hne : ¬(b.type ≠ b.type) := by simp
      simp only [MemoryPayload.cmp, ht]
      rw [if_neg hne, if_neg hne]
      split_ifs <;> omega
    · have ht' : b.type ≠ a.type := Ne.symm ht
      simp only [MemoryPayload.cmp, if_pos ht, if_pos ht']
      rcases Ne.lt_or_lt ht with h | h
      · rw [if_pos h, if_neg (asymm h)]
      · rw [if_neg (asymm h), if_pos h]
        decide
  · simp only [MemorySubPayload.cmp]
    split_ifs <;> omega

/-- C9, witness: the theorem applied at the adjacent memory intervals
`[0,5]` and `[6,9]` in the same address space gives `cmp = -1 = -(+1)`. -/
theorem c9_interval_cmp_antisymm_witness :
    (⟨'m', true, 0, 5, 0, 0⟩ : MemoryPayload).cmp ⟨'m', true, 6, 9, 0, 0⟩ =
      -((⟨'m', true, 6, 9, 0, 0⟩ : MemoryPayload).cmp
          ⟨'m', true, 0, 5, 0, 0⟩) :=
  (c9_interval_cmp_antisymm ⟨'m', true, 0, 5, 0, 0⟩ ⟨'m', true, 6, 9, 0, 0⟩
    ⟨0, 5, 0⟩ ⟨6, 9, 0⟩ (by decide) (by decide) (by decide) (by decide)).1

/-!
C4 — the layered-range array of a leaf node.
-/

/-- C4, counterexample: for a leaf node at call depth 0 covering 3 trace
lines, the second array entry carries `cumulative_lines = 3` (the node's
line count) and `cumulative_insns = 1`, not `cumulative_lines = 1` and
`cumulative_insns = 3` as the claim reads the spec's tuple. -/
theorem c4_leaf_array_counterexample :
    ¬((call_depth_array (SeqTree.node .nil 0 3 .nil)).map
        (fun en => (en.call_depth, en.cumulative_lines, en.cumulative_insns)) =
      [(0, 0, 0), (SENTINEL_DEPTH, 1, 3)]) := by
  decide

/-- C4 (amended): for every leaf node whose call depth is below
`SENTINEL_DEPTH`, the layered-range post-pass produces exactly two
entries: `(call_depth, 0, 0)`, and a sentinel entry whose
`cumulative_lines` is the node's `trace_file_lines` and whose
`cumulative_insns` is 1 — i.e. the spec's `(SENTINEL_DEPTH, 1,
lines_of_node)` tuple lists the instruction count before the line count,
opposite to the declared field order. -/
theorem c4_leaf_array (cd ln : Nat) (h : cd < SENTINEL_DEPTH) :
    call_depth_array (SeqTree.node .nil cd ln .nil) =
      [⟨cd, 0, 0, 0, 0⟩, ⟨SENTINEL_DEPTH, ln, 1, 0, 0⟩] := by
  simp [call_depth_array, SeqTree.nodes, cumLines, cumInsns,
    List.insertionSort, List.orderedInsert, List.dedup, List.pwFilter, h]

/-- C4, witness: the amended theorem applied at call depth 2 and 3 trace
lines. -/
theorem c4_leaf_array_witness :
    2 < SENTINEL_DEPTH ∧
      call_depth_array (SeqTree.node .nil 2 3 .nil) =
        [⟨2, 0, 0, 0, 0⟩, ⟨SENTINEL_DEPTH, 3, 1, 0, 0⟩] :=
  ⟨by decide, c4_leaf_array 2 3 (by decide)⟩

/-!
C7 — `lrt_translate_range` versus a direct full scan.
-/

/-- `lrt_translate` counts, among the lines before the position of the
`k`-th line whose depth is in the input range, those whose depth is in the
output range. -/
theorem lrt_translate_eq_take (ds : List Nat) (k da db ea eb : Nat) :
    lrt_translate ds k da db ea eb =
      ((ds.take (posOfNth ds da db k)).filter
        (fun d => inDepthRange ea eb d)).length := by
  induction ds generalizing k with
  | nil => simp [lrt_translate, posOfNth]
  | cons d rest ih =>
    simp only [lrt_translate, posOfNth]
    by_cases h : inDepthRange da db d
    · rw [if_pos h, if_pos h]
      by_cases hk : k = 0
      · simp [hk]
      · rw [if_neg hk, if_neg hk, List.take_succ_cons, List.filter_cons]
        by_cases he : inDepthRange ea eb d <;>
          simp [he, ih (k - 1), Nat.add_comm]
    · rw [if_neg h, if_neg h, List.take_succ_cons, List.filter_cons]
      by_cases he : inDepthRange ea eb d <;>
        simp [he, ih k, Nat.add_comm]

/-- The position of the `s`-th in-range line is monotone in `s`. -/
theorem posOfNth_mono (ds : List Nat) (da db : Nat) {s e : Nat} (h : s ≤ e) :
    posOfNth ds da db s ≤ posOfNth ds da db e := by
  induction ds generalizing s e with
  | nil => simp [posOfNth]
  | cons d rest ih =>
    simp only [posOfNth]
    by_cases hr : inDepthRange da db d
    · rw [if_pos hr, if_pos hr]
      by_cases hs : s = 0
      · simp [hs]
      · have he : e ≠ 0 := by omega
        rw [if_neg hs, if_neg he]
        exact Nat.succ_le_succ (ih (by omega))
    · rw [if_neg hr, if_neg hr]
      exact Nat.succ_le_succ (ih h)

/-- Splitting a filtered prefix count at an intermediate position. -/
theorem filter_take_length_split (ds : List Nat) (p : Nat → Bool)
    {m n : Nat} (h : m ≤ n) :
    ((ds.take n).filter p).length =
      ((ds.take m).filter p).length
        + (((ds.drop m).take (n - m)).filter p).length := by
  conv_lhs => rw [show n = m + (n - m) by omega]
  rw [List.take_add, List.filter_append, List.length_append]

/-- C7, counterexample: with two trace lines both at depth 0 and arguments
`s = 1 > e = 0` (depth ranges `[0,1)` both ways), the unsigned subtraction
inside `lrt_translate_range` wraps to `2^32 - 1`, while a direct scan
counts 0 lines; so the claim fails for arbitrary argument order. -/
theorem c7_lrt_range_counterexample :
    ¬(lrt_translate_range [0, 0] 1 0 0 1 0 1 =
        directRangeCount [0, 0] 1 0 0 1 0 1 ∧
      lrt_translate [0, 0] 1 0 1 0 1 ≤ lrt_translate [0, 0] 0 0 1 0 1) := by
  decide

/-- C7 (amended): whenever `linestart ≤ lineend` (and the trace has fewer
than `2^32` lines, so counts fit in an unsigned), `lrt_translate_range`
equals `lrt_translate` at `lineend` minus `lrt_translate` at `linestart`,
the subtraction never wraps (the subtrahend is never larger), and the
result equals the count obtained by a direct full scan of the lines with
depth in `[ea, eb)` between the `linestart`-th and `lineend`-th lines with
depth in `[da, db)`. -/
theorem c7_lrt_translate_range_spec (ds : List Nat) (s e da db ea eb : Nat)
    (hse : s ≤ e) (hlen : ds.length < U32_MOD) :
    lrt_translate ds s da db ea eb ≤ lrt_translate ds e da db ea eb ∧
    lrt_translate_range ds s e da db ea eb =
      lrt_translate ds e da db ea eb - lrt_translate ds s da db ea eb ∧
    lrt_translate_range ds s e da db ea eb =
      directRangeCount ds s e da db ea eb := by
  have hU : U32_MOD = 4294967296 := by norm_num [U32_MOD]
  have hpos := posOfNth_mono ds da db hse
  have hsplit := filter_take_length_split ds
    (fun d => inDepthRange ea eb d) hpos
  have hs := lrt_translate_eq_take ds s da db ea eb
  have he := lrt_translate_eq_take ds e da db ea eb
  have hbound : ((ds.take (posOfNth ds da db e)).filter
      (fun d => inDepthRange ea eb d)).length ≤ ds.length := by
    calc ((ds.take (posOfNth ds da db e)).filter
          (fun d => inDepthRange ea eb d)).length
        ≤ (ds.take (posOfNth ds da db e)).length :=
          List.length_filter_le _ _
      _ ≤ ds.length := by
          rw [List.length_take]
          omega
  refine ⟨by omega, ?_, ?_⟩
  · simp only [lrt_translate_range, hs, he, hU] at *
    omega
  · simp only [lrt_translate_range, directRangeCount, hs, he, hU] at *
    omega

/-- C7, witness: the amended theorem applied to the depth list
`[0, 1, 0, 2, 1]` with `s = 0`, `e = 2`, input range `[0, 2)` and output
range `[1, 2)`. -/
theorem c7_lrt_translate_range_witness :
    (0 ≤ 2 ∧ ([0, 1, 0, 2, 1] : List Nat).length < U32_MOD) ∧
      lrt_translate_range [0, 1, 0, 2, 1] 0 2 0 2 1 2 =
        directRangeCount [0, 1, 0, 2, 1] 0 2 0 2 1 2 :=
  ⟨⟨by decide, by decide⟩,
   (c7_lrt_translate_range_spec [0, 1, 0, 2, 1] 0 2 0 2 1 2
      (by decide) (by decide)).2.2⟩
